import Mathlib

/-!
Verification development for the interactive curve-splitting/merging engine of
the EasyLabelKit annotator (`elk.py`).

The engine lives in three methods of `Backend` plus the canvas callback
`MplCanvas.onselect`:

* `Backend.get_lasso_area`   (the spec's `resolveLoop`, lines 943-1008),
* `Backend.get_multi_area`   (the spec's `resolveSplit`, lines 1010-1097),
* `Backend.get_intersection_point` (the spec's IntersectionResolver, 1099-1125),
* `MplCanvas.onselect` together with the `ask_redraw` / `new_coords` handlers
  (`remove_object` and `draw_object`), which carry the object-lifecycle state.

Coordinates are embedded as rational pairs (`ℚ × ℚ`); the shapely/GEOS
primitives the engine calls (`intersection`, `intersects`, `nearest_points`
over a vertex `MultiPoint`, `split`, `distance`, `contains`, `LinearRing`)
are modelled exactly over ℚ.  Distances are compared through their squares,
which preserves every strict comparison the source makes.  The order in which
the intersection classifier reports point loci is fixed to be the traversal
order along the first geometry, which resolves GEOS's unspecified MultiPoint
ordering deterministically.

numpy's `np.round` is round-half-to-even, embedded as `npRound`.

Signal emissions (`new_coords`, `ask_redraw`) are collected into a trace;
a Python exception that escapes the slot is modelled as the outcome `.crash`.
-/

namespace Elk

/-- A point in image-pixel space: the engine's coordinates are float pairs,
embedded as rationals. -/
abbrev Pt : Type := ℚ × ℚ

/-- Cross product (z-component) of two plane vectors. -/
def cross (u v : Pt) : ℚ := u.1 * v.2 - u.2 * v.1

/-- Dot product of two plane vectors. -/
def dot (u v : Pt) : ℚ := u.1 * v.1 + u.2 * v.2

/-- Squared Euclidean distance between two points. -/
def sqDist (p q : Pt) : ℚ := (p.1 - q.1) ^ 2 + (p.2 - q.2) ^ 2

/-- numpy rounding (round half to even) of a rational to an integer. -/
def npRound (q : ℚ) : ℤ :=
  let f : ℤ := ⌊q⌋
  let frac : ℚ := q - f
  if frac < 1 / 2 then f
  else if 1 / 2 < frac then f + 1
  else if f % 2 = 0 then f else f + 1

/-- numpy rounding kept inside ℚ. -/
def npRoundQ (q : ℚ) : ℚ := (npRound q : ℚ)

/-- Component-wise numpy rounding of a point (`np.round` on a coordinate row). -/
def roundPt (p : Pt) : Pt := (npRoundQ p.1, npRoundQ p.2)

/-- Component-wise mean of a list of points (`np.mean(..., axis=0)`). -/
def meanList (l : List Pt) : Pt :=
  (((l.map Prod.fst).sum) / (l.length : ℚ), ((l.map Prod.snd).sum) / (l.length : ℚ))

/-- Whether point `p` lies on the closed segment from `a` to `b`:
collinear with it and inside its bounding box. -/
def onSeg (a b p : Pt) : Bool :=
  cross (b.1 - a.1, b.2 - a.2) (p.1 - a.1, p.2 - a.2) = 0 ∧
    min a.1 b.1 ≤ p.1 ∧ p.1 ≤ max a.1 b.1 ∧
    min a.2 b.2 ≤ p.2 ∧ p.2 ≤ max a.2 b.2

/-- One intersection locus between two segments: a single point or an
overlap segment. -/
inductive Locus where
  | pt (p : Pt)
  | seg (u v : Pt)
deriving DecidableEq

/-- Exact locus of the intersection of segment `ab` with segment `cd`
(the GEOS segment-intersection primitive): `none` when disjoint, a point
for a crossing or touch, a segment for a collinear overlap. -/
def segInter (a b c d : Pt) : Option Locus :=
  if a = b then
    if c = d then (if a = c then some (.pt a) else none)
    else (if onSeg c d a then some (.pt a) else none)
  else if c = d then
    (if onSeg a b c then some (.pt c) else none)
  else
    let r : Pt := (b.1 - a.1, b.2 - a.2)
    let s : Pt := (d.1 - c.1, d.2 - c.2)
    let w : Pt := (c.1 - a.1, c.2 - a.2)
    let den := cross r s
    if den ≠ 0 then
      let t := cross w s / den
      let u := cross w r / den
      if 0 ≤ t ∧ t ≤ 1 ∧ 0 ≤ u ∧ u ≤ 1 then
        some (.pt (a.1 + t * r.1, a.2 + t * r.2))
      else none
    else if cross w r ≠ 0 then none
    else
      let rr := dot r r
      let tc := dot w r
      let td := dot (d.1 - a.1, d.2 - a.2) r
      let lo := max 0 (min tc td)
      let hi := min rr (max tc td)
      if hi < lo then none
      else if lo = hi then some (.pt (a.1 + lo / rr * r.1, a.2 + lo / rr * r.2))
      else some (.seg (a.1 + lo / rr * r.1, a.2 + lo / rr * r.2)
                      (a.1 + hi / rr * r.1, a.2 + hi / rr * r.2))

/-- Consecutive-vertex segments of a polyline. -/
def segsOf (l : List Pt) : List (Pt × Pt) := l.zip l.tail

/-- All pairwise intersection loci between two polylines, in traversal order
along the first polyline (outer) and the second (inner). -/
def lociOf (A B : List Pt) : List Locus :=
  ((segsOf A).map (fun sa => (segsOf B).filterMap
      (fun sb => segInter sa.1 sa.2 sb.1 sb.2))).flatten

/-- Remove duplicates keeping the first occurrence of each point. -/
def dedupFirst : List Pt → List Pt
  | [] => []
  | a :: l => a :: (dedupFirst l).filter (fun q => q ≠ a)

/-- The tagged shape of a shapely geometry returned by `intersection`:
mirrors the runtime types `GeometryCollection` (empty or mixed), `Point`,
`MultiPoint`, `LineString`, `MultiLineString` that the engine dispatches on. -/
inductive GeomResult where
  | emptyCollection
  | point (p : Pt)
  | multiPoint (ps : List Pt)
  | lineString (cs : List Pt)
  | multiLineString (ls : List (List Pt))
  | collection (ps : List Pt) (ss : List (Pt × Pt))
deriving DecidableEq

/-- Tag the shape of an intersection from its residual point loci and
overlap runs, as shapely does: nothing is an empty `GeometryCollection`,
one point a `Point`, several points a `MultiPoint`, overlap runs a
`LineString`/`MultiLineString`, and a mix a `GeometryCollection`. -/
def classify (pts : List Pt) (overs : List (Pt × Pt)) : GeomResult :=
  match pts, overs with
  | [], [] => .emptyCollection
  | [q], [] => .point q
  | qs, [] => .multiPoint qs
  | [], [s] => .lineString [s.1, s.2]
  | [], ss => .multiLineString (ss.map (fun s => [s.1, s.2]))
  | qs, ss => .collection qs ss

/-- Classified intersection of two polylines, modelling
`A.intersection(B)` in shapely: collect all pairwise segment loci, absorb
points lying on an overlap run, deduplicate, and tag the result shape. -/
def interLs (A B : List Pt) : GeomResult :=
  let loci := lociOf A B
  let overs := loci.filterMap (fun x => match x with | .seg u v => some (u, v) | _ => none)
  let pts0 := loci.filterMap (fun x => match x with | .pt q => some q | _ => none)
  classify (dedupFirst (pts0.filter (fun q => ¬ overs.any (fun s => onSeg s.1 s.2 q)))) overs

/-- Outcome of one call to `get_intersection_point`: a resolved point, a
raised `ValueError` (caught by the callers' `except ValueError`), or an
uncaught exception (`TypeError`/`IndexError`) that crashes the slot. -/
inductive ResolverOut where
  | ok (p : Pt)
  | valueError
  | crash
deriving DecidableEq

/-- The tolerance loop of `get_intersection_point` (lines 1119-1125).  It
walks the rounded points; the `else` branch of the very first iteration
already `return`s the rounded mean, so the 1-px tolerance test is only ever
applied to the first member (which trivially passes).  An exhausted loop
would fall off the function (returning `None`, which crashes the caller);
an empty list has already crashed at `crosspoints[0]`. -/
def clusterScan (r0 meanPt : Pt) : List Pt → ResolverOut
  | [] => .crash
  | q :: _ =>
    if 1 < |q.1 - r0.1| ∨ 1 < |q.2 - r0.2| then .valueError else .ok meanPt

/-- Lines 1117-1125 of `get_intersection_point`: round every member
(`np.round`), take `crosspoints[0]` (IndexError on an empty list), and run
the tolerance loop, whose accepted value is the rounded component-wise mean
of the rounded members. -/
def clusterPhase (cs : List Pt) : ResolverOut :=
  let rounded := cs.map roundPt
  match rounded with
  | [] => .crash
  | r0 :: rest => clusterScan r0 (roundPt (meanList (r0 :: rest))) (r0 :: rest)

/-- `Backend.get_intersection_point` (lines 1099-1125).  A bare `Point` is
returned unchanged (line 1100-1101, no rounding).  A `LineString` is turned
into its coordinate list and clustered.  A `MultiLineString` recurses into
Points and then crashes: `np.round` over shapely `Point` objects raises a
`TypeError`, which `except ValueError` does not catch.  A `MultiPoint` is
clustered.  Any other shape raises `ValueError` (line 1114-1115). -/
def get_intersection_point : GeomResult → ResolverOut
  | .point p => .ok p
  | .lineString cs => clusterPhase cs
  | .multiLineString _ => .crash
  | .multiPoint ps => clusterPhase ps
  | .emptyCollection => .valueError
  | .collection _ _ => .valueError

/-- `nearest_points(MultiPoint(line.coords), p)[0]`: the vertex of the list
nearest to `p` (first one on ties). -/
def nearestVertex (l : List Pt) (p : Pt) : Pt :=
  match l with
  | [] => (0, 0)
  | a :: rest => rest.foldl (fun best q => if sqDist q p < sqDist best p then q else best) a

/-- Squared distance from point `p` to the closed segment `ab`. -/
def sqDistPS (a b p : Pt) : ℚ :=
  let w : Pt := (b.1 - a.1, b.2 - a.2)
  let v : Pt := (p.1 - a.1, p.2 - a.2)
  let ww := dot w w
  if ww = 0 then sqDist p a
  else
    let t := dot v w / ww
    let tc := max 0 (min 1 t)
    sqDist p (a.1 + tc * w.1, a.2 + tc * w.2)

/-- Squared distance from a point to a polyline (`LineString.distance(Point)`
squared): minimum over the polyline's segments. -/
def sqDistToLine (l : List Pt) (p : Pt) : ℚ :=
  ((segsOf l).map (fun s => sqDistPS s.1 s.2 p)).foldr min (sqDist (l.headD (0, 0)) p)

/-- Scanner behind `splitLine`: walk the segments with the already-passed
prefix accumulated in reverse.  A cut at the very start or very end of the
line produces no split (shapely returns the original geometry); a cut at an
interior vertex splits there; a cut in a segment's interior inserts the
point into both pieces. -/
def splitGo : List Pt → Pt → List Pt → Option (List Pt × List Pt)
  | a :: b :: rest, p, acc =>
    if p = a then
      if acc = [] then none
      else some ((a :: acc).reverse, a :: b :: rest)
    else if onSeg a b p ∧ p ≠ b then
      some ((p :: a :: acc).reverse, p :: b :: rest)
    else splitGo (b :: rest) p (a :: acc)
  | _, _, _ => none

/-- `shapely.ops.split(LineString(l), Point(p))`: two pieces when `p` cuts
the line properly, otherwise the collection holding the original line. -/
def splitLine (l : List Pt) (p : Pt) : List (List Pt) :=
  match splitGo l p [] with
  | none => [l]
  | some (x, y) => [x, y]

/-- `LineString.contains(Point)`: the point lies on the line and, unless the
line is closed (empty boundary), is not one of its two endpoints. -/
def lsContains (l : List Pt) (p : Pt) : Bool :=
  ((segsOf l).any (fun s => onSeg s.1 s.2 p)) &&
    (l.head? = l.getLast? || (decide (l.head? ≠ some p) && decide (l.getLast? ≠ some p)))

/-- A Qt signal emission of the backend: `new_coords([x, y])` or
`ask_redraw(case)`. -/
inductive Emission where
  | newCoords (xs ys : List ℚ)
  | askRedraw (n : ℕ)
deriving DecidableEq

/-- How a slot call ends: normal return, or an uncaught Python exception. -/
inductive Outcome where
  | normal
  | crash
deriving DecidableEq

/-- `Backend.get_lasso_area` continuation after the intersection of the two
gesture halves has been resolved to a point (lines 978-1008): find the
nearest vertex of each half, split each half there, silently return unless
both splits produced two pieces, keep the piece pair dictated by the
containment test on `split1[0]`, concatenate, and re-append the first
coordinate. -/
def glaResolve (l1 l2 : List Pt) (g : GeomResult) : List Emission × Outcome :=
  match get_intersection_point g with
  | .valueError => ([.askRedraw 1], .normal)
  | .crash => ([], .crash)
  | .ok c =>
    let crosspoint1 := nearestVertex l1 c
    let crosspoint2 := nearestVertex l2 c
    let split1 := splitLine l1 crosspoint1
    let split2 := splitLine l2 crosspoint2
    match split1, split2 with
    | [s10, s11], [s20, s21] =>
      let multi :=
        if lsContains s10 (l1.getLastD (0, 0)) ∨ lsContains s10 (l2.headD (0, 0))
        then [s10, s21] else [s11, s20]
      let flat := multi.headD [] ++ multi.getD 1 []
      let firstcoord := (multi.headD []).headD (0, 0)
      ([.newCoords ((flat ++ [firstcoord]).map Prod.fst)
                   ((flat ++ [firstcoord]).map Prod.snd)], .normal)
    | _, _ => ([], .normal)

/-- `Backend.get_lasso_area` (lines 943-1008), the spec's `resolveLoop`.
Gestures of fewer than 4 points return silently.  The gesture is split by
index into halves of sizes `⌈n/2⌉` and the rest (`np.array_split`).  An
empty intersection closes the gesture through `LinearRing` (re-appending the
first coordinate unless already closed); a nonempty `GeometryCollection`
rejects with code 1; otherwise the intersection is resolved and the loop is
re-stitched from the kept split pieces. -/
def get_lasso_area (lasso : List Pt) : List Emission × Outcome :=
  if lasso.length < 4 then ([], .normal)
  else
    let k := (lasso.length + 1) / 2
    let l1 := lasso.take k
    let l2 := lasso.drop k
    match interLs l1 l2 with
    | .emptyCollection =>
      let ring := if lasso.head? = lasso.getLast? then lasso
                  else lasso ++ [lasso.headD (0, 0)]
      ([.newCoords (ring.map Prod.fst) (ring.map Prod.snd)], .normal)
    | .collection _ _ => ([.askRedraw 1], .normal)
    | .point p => glaResolve l1 l2 (.point p)
    | .multiPoint ps => glaResolve l1 l2 (.multiPoint ps)
    | .lineString cs => glaResolve l1 l2 (.lineString cs)
    | .multiLineString ls => glaResolve l1 l2 (.multiLineString ls)

/-- Lines 1080-1094 of `get_multi_area`: append `multi[0]`'s coordinates,
then `multi[1]`'s forward or reversed (whichever end is nearer to the last
appended point), and emit — note that, unlike `get_lasso_area`, no closing
first coordinate is re-appended.  Fewer than two collected pieces raise
`IndexError` (`multi[0]` or `multi[1]`). -/
def gmStitch (tr : List Emission) (multi : List (List Pt)) : List Emission × Outcome :=
  match multi with
  | [] => (tr, .crash)
  | [_] => (tr, .crash)
  | m0 :: m1 :: _ =>
    let lastPt := m0.getLastD (0, 0)
    let ordered := if sqDist lastPt (m1.headD (0, 0)) < sqDist lastPt (m1.getLastD (0, 0))
                   then m1 else m1.reverse
    (tr ++ [.newCoords ((m0 ++ ordered).map Prod.fst) ((m0 ++ ordered).map Prod.snd)],
      .normal)

/-- Lines 1071-1078 of `get_multi_area`: keep whichever piece of
`split2_old` does not touch the parent's seam (its stored first/last
coordinate, 0.1-px tolerance); when `split2_old` has a single piece both
branches index `split2_old[1]` and raise `IndexError`; when neither piece
qualifies the code emits `ask_redraw(0)` but, lacking a `return`, falls
through to the stitching step without the arc. -/
def gmSeam (tr : List Emission) (maincell : List Pt) (split2_old : List (List Pt))
    (multi0s : List (List Pt)) : List Emission × Outcome :=
  match split2_old with
  | [] => (tr, .crash)
  | [_] => (tr, .crash)
  | s0 :: s1 :: _ =>
    if sqDistToLine s0 (maincell.headD (0, 0)) < 1 / 100 ∨
        sqDistToLine s0 (maincell.getLastD (0, 0)) < 1 / 100 then
      gmStitch tr (multi0s ++ [s1])
    else if sqDistToLine s1 (maincell.headD (0, 0)) < 1 / 100 ∨
        sqDistToLine s1 (maincell.getLastD (0, 0)) < 1 / 100 then
      gmStitch tr (multi0s ++ [s0])
    else gmStitch (tr ++ [.askRedraw 0]) multi0s

/-- Lines 1064-1069 of `get_multi_area`: pick the piece of `split1_old`
within 0.1 px of the second parent-side crosspoint and split it there; a
one-piece `split1_old` failing the first test raises `IndexError` at
`split1_old[1]`; when neither test passes the code emits `ask_redraw(0)` and
falls through, so the unbound `split2_old` crashes the next line. -/
def gmAfterK (tr : List Emission) (maincell : List Pt) (split1_old : List (List Pt))
    (c2o : Pt) (multi0s : List (List Pt)) : List Emission × Outcome :=
  if sqDistToLine (split1_old.headD []) c2o < 1 / 100 then
    gmSeam tr maincell (splitLine (split1_old.headD []) c2o) multi0s
  else
    match split1_old with
    | [] => (tr, .crash)
    | [_] => (tr, .crash)
    | _ :: s1o1 :: _ =>
      if sqDistToLine s1o1 c2o < 1 / 100 then
        gmSeam tr maincell (splitLine s1o1 c2o) multi0s
      else (tr ++ [.askRedraw 0], .crash)

/-- Lines 1057-1062 of `get_multi_area`: keep whichever piece of `split2`
lies within 1 px of both resolved line-side crosspoints; a one-piece
`split2` failing the first test raises `IndexError` at `split2[1]`; when
neither passes the code emits `ask_redraw(0)` and falls through with no kept
sub-line. -/
def gmK (tr : List Emission) (split2 : List (List Pt)) (c1 c2 : Pt)
    (maincell : List Pt) (split1_old : List (List Pt)) (c2o : Pt) :
    List Emission × Outcome :=
  match split2 with
  | [] => (tr, .crash)
  | [s0] =>
    if sqDistToLine s0 c1 < 1 ∧ sqDistToLine s0 c2 < 1 then
      gmAfterK tr maincell split1_old c2o [s0]
    else (tr, .crash)
  | s0 :: s1 :: _ =>
    if sqDistToLine s0 c1 < 1 ∧ sqDistToLine s0 c2 < 1 then
      gmAfterK tr maincell split1_old c2o [s0]
    else if sqDistToLine s1 c1 < 1 ∧ sqDistToLine s1 c2 < 1 then
      gmAfterK tr maincell split1_old c2o [s1]
    else gmAfterK (tr ++ [.askRedraw 0]) maincell split1_old c2o []

/-- `Backend.get_multi_area` (lines 1010-1097), the spec's `resolveSplit`;
`parent` is `lassolist[0]` (the parent contour's stored coordinates) and
`gesture` is `lassolist[1]` (the drawn line).  Gestures of fewer than 4
points return silently; a parent with fewer than 2 coordinates makes
`LineString` raise.  A non-intersecting or non-`MultiPoint` intersection
rejects with code 2, more than two crossing points with code 4.  With two
crossing points the line and the parent are each split at their vertices
nearest to the crossings (`get_intersection_point` on a bare `Point`
returns it unchanged, so the `except ValueError` branch emitting code 1 is
dead), and the kept pieces are stitched by `gmK`/`gmAfterK`/`gmSeam`/
`gmStitch`. -/
def get_multi_area (parent gesture : List Pt) : List Emission × Outcome :=
  if gesture.length < 4 then ([], .normal)
  else if parent.length < 2 then ([], .crash)
  else
    match interLs parent gesture with
    | .emptyCollection => ([.askRedraw 2], .normal)
    | .multiPoint pts =>
      if 2 < pts.length then ([.askRedraw 4], .normal)
      else
        match pts with
        | p0 :: p1 :: _ =>
          let crosspoint1 := nearestVertex gesture p0
          let crosspoint1_old := nearestVertex parent p0
          let split1 := splitLine gesture crosspoint1
          let split1_old := splitLine parent crosspoint1_old
          let crosspoint2 := nearestVertex gesture p1
          let crosspoint2_old := nearestVertex parent p1
          match get_intersection_point (.point crosspoint1) with
          | .valueError => ([.askRedraw 1], .normal)
          | .crash => ([], .crash)
          | .ok c1 =>
            match get_intersection_point (.point crosspoint1_old) with
            | .valueError => ([.askRedraw 1], .normal)
            | .crash => ([], .crash)
            | .ok _ =>
              match get_intersection_point (.point crosspoint2) with
              | .valueError => ([.askRedraw 1], .normal)
              | .crash => ([], .crash)
              | .ok c2 =>
                match get_intersection_point (.point crosspoint2_old) with
                | .valueError => ([.askRedraw 1], .normal)
                | .crash => ([], .crash)
                | .ok c2o =>
                  if sqDistToLine (split1.headD []) p1 < 1 / 100 then
                    gmK [] (splitLine (split1.headD []) c2) c1 c2 parent split1_old c2o
                  else
                    match split1 with
                    | [] => ([], .crash)
                    | [_] => ([], .crash)
                    | _ :: s11 :: _ =>
                      if sqDistToLine s11 p1 < 1 / 100 then
                        gmK [] (splitLine s11 c2) c1 c2 parent split1_old c2o
                      else ([.askRedraw 0], .crash)
        | _ => ([], .crash)
    | _ => ([.askRedraw 2], .normal)

/-- The session state visible to one engine call: the current target object's
stored curve (`Object.x` / `Object.y`), whether it has a parent, and the
parent object's stored curve.  The canvas bookkeeping (zoom, line artists)
carries no engine data and is omitted. -/
structure SessObj where
  x : Option (List ℚ)
  y : Option (List ℚ)
  hasParent : Bool
  parentX : Option (List ℚ)
  parentY : Option (List ℚ)
deriving DecidableEq

/-- Effect of one delivered backend emission on the target object:
`new_coords` runs `MplCanvas.draw_object` (lines 1231-1232), which stores the
coordinates on the current object; `ask_redraw` runs the main window's
handler (line 161), which calls `MplCanvas.remove_object` (lines 1245-1246),
clearing the current object's coordinates. -/
def applyEmission (o : SessObj) : Emission → SessObj
  | .newCoords xs ys => { o with x := some xs, y := some ys }
  | .askRedraw _ => { o with x := none, y := none }

/-- Deliver a queued trace of emissions in order. -/
def applyTrace (o : SessObj) (tr : List Emission) : SessObj :=
  tr.foldl applyEmission o

/-- `MplCanvas.onselect` (lines 1185-1217) together with the delivery of the
queued backend signals.  Without a parent the gesture goes to
`get_lasso_area`; with a parent the parent's stored coordinates are zipped
into `mainobject` and sent to `get_multi_area`.  A `None` parent coordinate
list raises `TypeError` inside the guarded loop, which is caught
(`except TypeError or AttributeError` evaluates to `except TypeError`) and
reported as `ask_redraw(3)` after the raw verts have been stored; the
direct-connection handler then clears them again.  A parent `y` shorter than
`x` raises an uncaught `IndexError` before the verts are stored.  In every
non-crashing path `onselect` first stores the raw gesture on the object and
the queued handlers then overwrite or clear it. -/
def onselect (o : SessObj) (verts : List Pt) : SessObj × List Emission × Outcome :=
  if o.hasParent = false then
    let r := get_lasso_area verts
    (applyTrace { o with x := some (verts.map Prod.fst), y := some (verts.map Prod.snd) }
        r.1, r.1, r.2)
  else
    match o.parentX, o.parentY with
    | none, _ => ({ o with x := none, y := none }, [.askRedraw 3], .normal)
    | some xs, none =>
      if xs = [] then
        let r := get_multi_area [] verts
        (applyTrace { o with x := some (verts.map Prod.fst), y := some (verts.map Prod.snd) }
            r.1, r.1, r.2)
      else ({ o with x := none, y := none }, [.askRedraw 3], .normal)
    | some xs, some ys =>
      if ys.length < xs.length then (o, [], .crash)
      else
        let r := get_multi_area (xs.zip ys) verts
        (applyTrace { o with x := some (verts.map Prod.fst), y := some (verts.map Prod.snd) }
            r.1, r.1, r.2)

/-- The closed square ring `[(0,0),(10,0),(10,10),(0,10),(0,0)]` used as a
concrete parent contour. -/
def squareRing : List Pt := [(0, 0), (10, 0), (10, 10), (0, 10), (0, 0)]

/-- A gesture crossing the square's bottom edge three times (a W shape). -/
def wGesture : List Pt := [(1, -1), (1, 1), (3, 1), (3, -1), (8, -1), (8, 1)]

/-- A vertical four-point gesture crossing the square's bottom and top edges
at `(4,0)` and `(4,10)`. -/
def vGesture : List Pt := [(4, -2), (4, 1), (4, 9), (4, 12)]

/-- A gesture crossing the square twice close to its corner `(10,0)`, so
that both parent-side crossings resolve to that same vertex. -/
def cornerGesture : List Pt := [(43/5, -1), (43/5, 3/2), (12, 3/2), (12, -1)]

/-- A four-point gesture entirely outside the square. -/
def farGesture : List Pt := [(20, 20), (21, 20), (21, 21), (20, 21)]

/-- A concrete session object: a child object that already stores a curve,
whose parent stores the square ring. -/
def demoObj : SessObj :=
  { x := some [1, 2], y := some [3, 4], hasParent := true,
    parentX := some [0, 10, 10, 0, 0], parentY := some [0, 0, 10, 10, 0] }

/-- Whether an emission reports a reject code (`ask_redraw`). -/
def isReject : Emission → Bool
  | .askRedraw _ => true
  | .newCoords _ _ => false

/-- Whether an emission carries a curve output (`new_coords`). -/
def isCurve : Emission → Bool
  | .newCoords _ _ => true
  | .askRedraw _ => false

section Lemmas

/-- The tolerance loop accepts any nonempty cluster: its first iteration
compares the first rounded member with itself and immediately returns the
rounded mean of the rounded members. -/
theorem clusterPhase_cons (c : Pt) (cs : List Pt) :
    clusterPhase (c :: cs) = .ok (roundPt (meanList ((c :: cs).map roundPt))) := by
  simp [clusterPhase, clusterScan]

/-- Component-wise means agree on permuted lists. -/
theorem meanList_perm {l l' : List Pt} (h : l.Perm l') : meanList l = meanList l' := by
  unfold meanList
  rw [(h.map Prod.fst).sum_eq, (h.map Prod.snd).sum_eq, h.length_eq]

/-- `applyEmission` never touches the parent fields. -/
theorem applyEmission_parent (o : SessObj) (e : Emission) :
    (applyEmission o e).hasParent = o.hasParent ∧
    (applyEmission o e).parentX = o.parentX ∧
    (applyEmission o e).parentY = o.parentY := by
  cases e <;> simp [applyEmission]

/-- `applyTrace` never touches the parent fields. -/
theorem applyTrace_parent (tr : List Emission) (o : SessObj) :
    (applyTrace o tr).hasParent = o.hasParent ∧
    (applyTrace o tr).parentX = o.parentX ∧
    (applyTrace o tr).parentY = o.parentY := by
  induction tr generalizing o with
  | nil => exact ⟨rfl, rfl, rfl⟩
  | cons e tr ih =>
    have h1 := applyEmission_parent o e
    have h2 := ih (applyEmission o e)
    simp only [applyTrace, List.foldl_cons] at *
    exact ⟨h2.1.trans h1.1, h2.2.1.trans h1.2.1, h2.2.2.trans h1.2.2⟩

/-- Delivering emissions preserves `hasParent`. -/
theorem applyTrace_hasParent (tr : List Emission) (o : SessObj) :
    (applyTrace o tr).hasParent = o.hasParent := (applyTrace_parent tr o).1

/-- Delivering emissions preserves the parent's `x` coordinates. -/
theorem applyTrace_parentX (tr : List Emission) (o : SessObj) :
    (applyTrace o tr).parentX = o.parentX := (applyTrace_parent tr o).2.1

/-- Delivering emissions preserves the parent's `y` coordinates. -/
theorem applyTrace_parentY (tr : List Emission) (o : SessObj) :
    (applyTrace o tr).parentY = o.parentY := (applyTrace_parent tr o).2.2

/-- The fold behind `nearestVertex` stays within the candidate vertices. -/
theorem nearestVertex_foldl_mem (p : Pt) (rest : List Pt) : ∀ a : Pt,
    rest.foldl (fun best q => if sqDist q p < sqDist best p then q else best) a ∈ a :: rest := by
  induction rest with
  | nil => intro a; simp
  | cons q t ih =>
    intro a
    simp only [List.foldl_cons]
    rcases List.mem_cons.1 (ih (if sqDist q p < sqDist a p then q else a)) with h | h
    · rw [h]
      split <;> simp
    · simp [h]

/-- The nearest vertex of a nonempty list is one of its elements. -/
theorem nearestVertex_mem (l : List Pt) (p : Pt) (h : l ≠ []) : nearestVertex l p ∈ l := by
  cases l with
  | nil => exact absurd rfl h
  | cons a rest => exact nearestVertex_foldl_mem p rest a

/-- Invariant of the split scanner: each produced piece is built from the
scanned line, the accumulated prefix, and the cut point, and both pieces are
nonempty. -/
theorem splitGo_inv : ∀ (l : List Pt) (p : Pt) (acc x y : List Pt),
    splitGo l p acc = some (x, y) →
      (∀ v ∈ x, v ∈ l ∨ v ∈ acc ∨ v = p) ∧ (∀ v ∈ y, v ∈ l ∨ v = p) ∧ x ≠ [] ∧ y ≠ [] := by
  intro l
  induction l with
  | nil => intro p acc x y h; exact absurd h (by simp [splitGo])
  | cons a tail ih =>
    intro p acc x y h
    cases tail with
    | nil => exact absurd h (by simp [splitGo])
    | cons b rest =>
      rw [splitGo] at h
      by_cases hpa : p = a
      · rw [if_pos hpa] at h
        by_cases hacc : acc = []
        · rw [if_pos hacc] at h; exact absurd h (by simp)
        · rw [if_neg hacc] at h
          obtain ⟨hx, hy⟩ := Prod.mk.injEq .. ▸ Option.some.injEq .. ▸ h
          refine ⟨?_, ?_, ?_, ?_⟩
          · intro v hv
            rw [← hx, List.mem_reverse, List.mem_cons] at hv
            rcases hv with hv | hv
            · exact Or.inl (hv ▸ List.mem_cons_self a _)
            · exact Or.inr (Or.inl hv)
          · intro v hv
            exact Or.inl (hy ▸ hv)
          · rw [← hx]; simp
          · rw [← hy]; simp
      · rw [if_neg hpa] at h
        by_cases hseg : onSeg a b p = true ∧ p ≠ b
        · rw [if_pos hseg] at h
          obtain ⟨hx, hy⟩ := Prod.mk.injEq .. ▸ Option.some.injEq .. ▸ h
          refine ⟨?_, ?_, ?_, ?_⟩
          · intro v hv
            rw [← hx, List.mem_reverse, List.mem_cons, List.mem_cons] at hv
            rcases hv with hv | hv | hv
            · exact Or.inr (Or.inr hv)
            · exact Or.inl (hv ▸ List.mem_cons_self a _)
            · exact Or.inr (Or.inl hv)
          · intro v hv
            rw [← hy, List.mem_cons] at hv
            rcases hv with hv | hv
            · exact Or.inr hv
            · exact Or.inl (List.mem_cons_of_mem a hv)
          · rw [← hx]; simp
          · rw [← hy]; simp
        · rw [if_neg hseg] at h
          obtain ⟨h1, h2, h3, h4⟩ := ih p (a :: acc) x y h
          refine ⟨?_, ?_, h3, h4⟩
          · intro v hv
            rcases h1 v hv with hv' | hv' | hv'
            · exact Or.inl (List.mem_cons_of_mem a hv')
            · rcases List.mem_cons.1 hv' with hv'' | hv''
              · exact Or.inl (hv'' ▸ List.mem_cons_self a _)
              · exact Or.inr (Or.inl hv'')
            · exact Or.inr (Or.inr hv')
          · intro v hv
            rcases h2 v hv with hv' | hv'
            · exact Or.inl (List.mem_cons_of_mem a hv')
            · exact Or.inr hv'

/-- Every vertex of a split piece is a vertex of the original line or the
cut point itself. -/
theorem splitLine_mem {l : List Pt} {p : Pt} {piece : List Pt}
    (hp : piece ∈ splitLine l p) : ∀ v ∈ piece, v ∈ l ∨ v = p := by
  unfold splitLine at hp
  rcases hgo : splitGo l p [] with - | ⟨x, y⟩
  · rw [hgo] at hp
    simp only [List.mem_singleton] at hp
    exact fun v hv => Or.inl (hp ▸ hv)
  · rw [hgo] at hp
    obtain ⟨h1, h2, -, -⟩ := splitGo_inv l p [] x y hgo
    rcases List.mem_cons.1 hp with hp' | hp'
    · intro v hv
      rcases h1 v (hp' ▸ hv) with hv' | hv' | hv'
      · exact Or.inl hv'
      · exact absurd hv' (List.not_mem_nil v)
      · exact Or.inr hv'
    · simp only [List.mem_singleton] at hp'
      exact fun v hv => h2 v (hp' ▸ hv)

/-- Pieces of splitting a nonempty line are nonempty. -/
theorem splitLine_piece_ne_nil {l : List Pt} {p : Pt} {piece : List Pt}
    (hl : l ≠ []) (hp : piece ∈ splitLine l p) : piece ≠ [] := by
  unfold splitLine at hp
  rcases hgo : splitGo l p [] with - | ⟨x, y⟩
  · rw [hgo] at hp
    simp only [List.mem_singleton] at hp
    exact hp ▸ hl
  · rw [hgo] at hp
    obtain ⟨-, -, h3, h4⟩ := splitGo_inv l p [] x y hgo
    rcases List.mem_cons.1 hp with hp' | hp'
    · exact hp' ▸ h3
    · simp only [List.mem_singleton] at hp'
      exact hp' ▸ h4

/-- `splitLine` always returns at least one piece. -/
theorem splitLine_ne_nil (l : List Pt) (p : Pt) : splitLine l p ≠ [] := by
  unfold splitLine
  rcases splitGo l p [] with - | ⟨x, y⟩ <;> simp

/-- The head of the piece list of `splitLine` is a piece. -/
theorem splitLine_headD_mem (l : List Pt) (p : Pt) :
    (splitLine l p).headD [] ∈ splitLine l p := by
  unfold splitLine
  rcases splitGo l p [] with - | ⟨x, y⟩ <;> simp

/-- Case analysis of the seam-selection block: with at most one piece
already kept, the call either ends in a crash keeping the incoming trace
(possibly extended by one `ask_redraw(0)`), or emits exactly one curve made
of the kept piece `K` followed by one piece `R` of `split2_old` traversed
forward or reversed. -/
theorem gmSeam_cases (tr : List Emission) (mc : List Pt) (s2o m0s : List (List Pt))
    (hlen : m0s.length ≤ 1) :
    ((gmSeam tr mc s2o m0s).2 = .crash ∧
      ((gmSeam tr mc s2o m0s).1 = tr ∨ (gmSeam tr mc s2o m0s).1 = tr ++ [.askRedraw 0])) ∨
    (∃ K R ord, m0s = [K] ∧ R ∈ s2o ∧ (ord = R ∨ ord = R.reverse) ∧
      gmSeam tr mc s2o m0s =
        (tr ++ [.newCoords ((K ++ ord).map Prod.fst) ((K ++ ord).map Prod.snd)], .normal)) := by
  rcases m0s with - | ⟨K, - | ⟨K2, m⟩⟩
  · rcases s2o with - | ⟨s0, - | ⟨s1, srest⟩⟩
    · exact Or.inl ⟨rfl, Or.inl rfl⟩
    · exact Or.inl ⟨rfl, Or.inl rfl⟩
    · simp only [gmSeam]
      split
      · exact Or.inl ⟨rfl, Or.inl rfl⟩
      · split
        · exact Or.inl ⟨rfl, Or.inl rfl⟩
        · exact Or.inl ⟨rfl, Or.inr rfl⟩
  · rcases s2o with - | ⟨s0, - | ⟨s1, srest⟩⟩
    · exact Or.inl ⟨rfl, Or.inl rfl⟩
    · exact Or.inl ⟨rfl, Or.inl rfl⟩
    · simp only [gmSeam]
      split
      · -- keep s1
        by_cases hc : sqDist (K.getLastD (0, 0)) (s1.headD (0, 0)) <
            sqDist (K.getLastD (0, 0)) (s1.getLastD (0, 0))
        · refine Or.inr ⟨K, s1, s1, rfl, by simp, Or.inl rfl, ?_⟩
          simp only [List.singleton_append, gmStitch]
          rw [if_pos hc]
        · refine Or.inr ⟨K, s1, s1.reverse, rfl, by simp, Or.inr rfl, ?_⟩
          simp only [List.singleton_append, gmStitch]
          rw [if_neg hc]
      · split
        · -- keep s0
          by_cases hc : sqDist (K.getLastD (0, 0)) (s0.headD (0, 0)) <
              sqDist (K.getLastD (0, 0)) (s0.getLastD (0, 0))
          · refine Or.inr ⟨K, s0, s0, rfl, by simp, Or.inl rfl, ?_⟩
            simp only [List.singleton_append, gmStitch]
            rw [if_pos hc]
          · refine Or.inr ⟨K, s0, s0.reverse, rfl, by simp, Or.inr rfl, ?_⟩
            simp only [List.singleton_append, gmStitch]
            rw [if_neg hc]
        · exact Or.inl ⟨rfl, Or.inr rfl⟩
  · simp at hlen

/-- Case analysis of the parent-side split block (lines 1064-1078): with
`split1_old` nonempty and at most one kept piece, either a crash keeping the
incoming trace (possibly plus one `ask_redraw(0)`), or one emitted curve of
the kept piece `K` followed by a piece of the second parent-side split. -/
theorem gmAfterK_cases (tr : List Emission) (mc : List Pt) (s1o : List (List Pt))
    (c2o : Pt) (m0s : List (List Pt)) (hlen : m0s.length ≤ 1) (hs1o : s1o ≠ []) :
    ((gmAfterK tr mc s1o c2o m0s).2 = .crash ∧
      ((gmAfterK tr mc s1o c2o m0s).1 = tr ∨
        (gmAfterK tr mc s1o c2o m0s).1 = tr ++ [.askRedraw 0])) ∨
    (∃ K R ord s, m0s = [K] ∧ s ∈ s1o ∧ R ∈ splitLine s c2o ∧ (ord = R ∨ ord = R.reverse) ∧
      gmAfterK tr mc s1o c2o m0s =
        (tr ++ [.newCoords ((K ++ ord).map Prod.fst) ((K ++ ord).map Prod.snd)], .normal)) := by
  rcases s1o with - | ⟨s1o0, - | ⟨s1o1, stail⟩⟩
  · exact absurd rfl hs1o
  · unfold gmAfterK
    split
    · rcases gmSeam_cases tr mc (splitLine s1o0 c2o) m0s hlen with h | ⟨K, R, ord, h⟩
      · exact Or.inl h
      · exact Or.inr ⟨K, R, ord, s1o0, h.1, by simp, h.2.1, h.2.2⟩
    · exact Or.inl ⟨rfl, Or.inl rfl⟩
  · unfold gmAfterK
    split
    · rcases gmSeam_cases tr mc (splitLine s1o0 c2o) m0s hlen with h | ⟨K, R, ord, h⟩
      · exact Or.inl h
      · exact Or.inr ⟨K, R, ord, s1o0, h.1, by simp, h.2.1, h.2.2⟩
    · dsimp only
      split
      · rcases gmSeam_cases tr mc (splitLine s1o1 c2o) m0s hlen with h | ⟨K, R, ord, h⟩
        · exact Or.inl h
        · exact Or.inr ⟨K, R, ord, s1o1, h.1, by simp, h.2.1, h.2.2⟩
      · exact Or.inl ⟨rfl, Or.inr rfl⟩

/-- Case analysis of the sub-line-selection block (lines 1057-1062) and all
that follows: either a crash with at most two `ask_redraw(0)` emissions
appended to the incoming trace, or exactly one emitted curve consisting of a
kept piece `K` of `split2` followed by one arc piece of the second
parent-side split, forward or reversed. -/
theorem gmK_cases (tr : List Emission) (split2 : List (List Pt)) (c1 c2 : Pt)
    (mc : List Pt) (s1o : List (List Pt)) (c2o : Pt) (hs1o : s1o ≠ []) :
    ((gmK tr split2 c1 c2 mc s1o c2o).2 = .crash ∧
      ((gmK tr split2 c1 c2 mc s1o c2o).1 = tr ∨
        (gmK tr split2 c1 c2 mc s1o c2o).1 = tr ++ [.askRedraw 0] ∨
        (gmK tr split2 c1 c2 mc s1o c2o).1 = tr ++ [.askRedraw 0, .askRedraw 0])) ∨
    (∃ K R ord s, K ∈ split2 ∧ s ∈ s1o ∧ R ∈ splitLine s c2o ∧ (ord = R ∨ ord = R.reverse) ∧
      gmK tr split2 c1 c2 mc s1o c2o =
        (tr ++ [.newCoords ((K ++ ord).map Prod.fst) ((K ++ ord).map Prod.snd)], .normal)) := by
  rcases split2 with - | ⟨s0, - | ⟨s1, srest⟩⟩
  · exact Or.inl ⟨rfl, Or.inl rfl⟩
  · unfold gmK
    dsimp only
    split
    · rcases gmAfterK_cases tr mc s1o c2o [s0] (by simp) hs1o with
        h | ⟨K, R, ord, s, hK, hs, hR, hord, heq⟩
      · exact Or.inl ⟨h.1, h.2.imp id Or.inl⟩
      · obtain rfl : K = s0 := by simpa using hK.symm
        exact Or.inr ⟨K, R, ord, s, by simp, hs, hR, hord, heq⟩
    · exact Or.inl ⟨rfl, Or.inl rfl⟩
  · unfold gmK
    dsimp only
    split
    · rcases gmAfterK_cases tr mc s1o c2o [s0] (by simp) hs1o with
        h | ⟨K, R, ord, s, hK, hs, hR, hord, heq⟩
      · exact Or.inl ⟨h.1, h.2.imp id Or.inl⟩
      · obtain rfl : K = s0 := by simpa using hK.symm
        exact Or.inr ⟨K, R, ord, s, by simp, hs, hR, hord, heq⟩
    · split
      · rcases gmAfterK_cases tr mc s1o c2o [s1] (by simp) hs1o with
          h | ⟨K, R, ord, s, hK, hs, hR, hord, heq⟩
        · exact Or.inl ⟨h.1, h.2.imp id Or.inl⟩
        · obtain rfl : K = s1 := by simpa using hK.symm
          exact Or.inr ⟨K, R, ord, s, by simp, hs, hR, hord, heq⟩
      · rcases gmAfterK_cases (tr ++ [.askRedraw 0]) mc s1o c2o [] (by simp) hs1o with
          h | ⟨K, R, ord, s, hK, hs, hR, hord, heq⟩
        · refine Or.inl ⟨h.1, ?_⟩
          rcases h.2 with h2 | h2
          · exact Or.inr (Or.inl h2)
          · refine Or.inr (Or.inr ?_)
            rw [h2, List.append_assoc]
            rfl
        · exact absurd hK (by simp)

/-- Case analysis of the whole split pipeline once the intersection has been
classified as exactly two crossing points: either one emitted curve made of
a nonempty piece of the gesture's vertices followed by a nonempty piece of
the parent's vertices, or a crash having emitted at most two
`ask_redraw(0)`. -/
theorem gm_pipeline (P G : List Pt) (p0 p1 : Pt) (prest : List Pt)
    (hG : ¬G.length < 4) (hP : ¬P.length < 2)
    (hI : interLs P G = .multiPoint (p0 :: p1 :: prest))
    (hlen : ¬2 < (p0 :: p1 :: prest).length) :
    (∃ K R, K ≠ [] ∧ R ≠ [] ∧ (∀ v ∈ K, v ∈ G) ∧ (∀ v ∈ R, v ∈ P) ∧
      get_multi_area P G =
        ([.newCoords ((K ++ R).map Prod.fst) ((K ++ R).map Prod.snd)], .normal)) ∨
    ((get_multi_area P G).2 = .crash ∧
      ((get_multi_area P G).1 = [] ∨ (get_multi_area P G).1 = [.askRedraw 0] ∨
        (get_multi_area P G).1 = [.askRedraw 0, .askRedraw 0])) := by
  have hGne : G ≠ [] := by
    intro h
    rw [h] at hG
    exact hG (by simp)
  have hPne : P ≠ [] := by
    intro h
    rw [h] at hP
    exact hP (by simp)
  unfold get_multi_area
  rw [if_neg hG, if_neg hP, hI]
  dsimp only
  rw [if_neg hlen]
  dsimp only [get_intersection_point]
  have hsplit1old : splitLine P (nearestVertex P p0) ≠ [] :=
    splitLine_ne_nil P (nearestVertex P p0)
  have memG : ∀ {s : List Pt} {c : Pt} {K : List Pt}, s ∈ splitLine G (nearestVertex G p0) →
      c ∈ G → K ∈ splitLine s c → K ≠ [] ∧ ∀ v ∈ K, v ∈ G := by
    intro s c K hsmem hcG hK
    have hsne : s ≠ [] := splitLine_piece_ne_nil hGne hsmem
    refine ⟨splitLine_piece_ne_nil hsne hK, fun v hv => ?_⟩
    rcases splitLine_mem hK v hv with hv' | hv'
    · rcases splitLine_mem hsmem v hv' with hv'' | hv''
      · exact hv''
      · exact hv'' ▸ nearestVertex_mem G p0 hGne
    · exact hv' ▸ hcG
  have memP : ∀ {s : List Pt} {R : List Pt}, s ∈ splitLine P (nearestVertex P p0) →
      R ∈ splitLine s (nearestVertex P p1) → R ≠ [] ∧ ∀ v ∈ R, v ∈ P := by
    intro s R hsmem hR
    have hsne : s ≠ [] := splitLine_piece_ne_nil hPne hsmem
    refine ⟨splitLine_piece_ne_nil hsne hR, fun v hv => ?_⟩
    rcases splitLine_mem hR v hv with hv' | hv'
    · rcases splitLine_mem hsmem v hv' with hv'' | hv''
      · exact hv''
      · exact hv'' ▸ nearestVertex_mem P p0 hPne
    · exact hv' ▸ nearestVertex_mem P p1 hPne
  split
  · -- split2 from the head piece of split1
    rcases gmK_cases [] (splitLine ((splitLine G (nearestVertex G p0)).headD [])
        (nearestVertex G p1)) (nearestVertex G p0) (nearestVertex G p1) P
        (splitLine P (nearestVertex P p0)) (nearestVertex P p1) hsplit1old with
      h | ⟨K, R, ord, s, hK, hs, hR, hord, heq⟩
    · right
      exact ⟨h.1, by simpa using h.2⟩
    · left
      obtain ⟨hKne, hKG⟩ := memG (splitLine_headD_mem G (nearestVertex G p0))
        (nearestVertex_mem G p1 hGne) hK
      obtain ⟨hRne, hRP⟩ := memP hs hR
      refine ⟨K, ord, hKne, ?_, hKG, ?_, heq⟩
      · rcases hord with rfl | rfl
        · exact hRne
        · simpa using hRne
      · intro v hv
        rcases hord with rfl | rfl
        · exact hRP v hv
        · exact hRP v (List.mem_reverse.1 hv)
  · rcases hsplit1eq : splitLine G (nearestVertex G p0) with - | ⟨g0, - | ⟨s11, gtail⟩⟩
    · exact absurd hsplit1eq (splitLine_ne_nil G (nearestVertex G p0))
    · right; exact ⟨rfl, Or.inl rfl⟩
    · dsimp only
      split
      · rcases gmK_cases [] (splitLine s11 (nearestVertex G p1)) (nearestVertex G p0)
          (nearestVertex G p1) P (splitLine P (nearestVertex P p0))
          (nearestVertex P p1) hsplit1old with
          h | ⟨K, R, ord, s, hK, hs, hR, hord, heq⟩
        · right
          exact ⟨h.1, by simpa using h.2⟩
        · left
          have hs11 : s11 ∈ splitLine G (nearestVertex G p0) := by
            rw [hsplit1eq]
            simp
          obtain ⟨hKne, hKG⟩ := memG hs11 (nearestVertex_mem G p1 hGne) hK
          obtain ⟨hRne, hRP⟩ := memP hs hR
          refine ⟨K, ord, hKne, ?_, hKG, ?_, heq⟩
          · rcases hord with rfl | rfl
            · exact hRne
            · simpa using hRne
          · intro v hv
            rcases hord with rfl | rfl
            · exact hRP v hv
            · exact hRP v (List.mem_reverse.1 hv)
      · right; exact ⟨rfl, Or.inr (Or.inl rfl)⟩

/-- Master case analysis of `get_multi_area`: every call either succeeds
with a single emitted curve made of a nonempty piece of the gesture's
vertices followed by a nonempty piece of the parent's vertices, or returns
silently, or rejects with code 2 or 4, or crashes having emitted at most two
`ask_redraw(0)`. -/
theorem gm_master (P G : List Pt) :
    (∃ K R, K ≠ [] ∧ R ≠ [] ∧ (∀ v ∈ K, v ∈ G) ∧ (∀ v ∈ R, v ∈ P) ∧
      get_multi_area P G =
        ([.newCoords ((K ++ R).map Prod.fst) ((K ++ R).map Prod.snd)], .normal)) ∨
    get_multi_area P G = ([], .normal) ∨
    get_multi_area P G = ([.askRedraw 2], .normal) ∨
    get_multi_area P G = ([.askRedraw 4], .normal) ∨
    ((get_multi_area P G).2 = .crash ∧
      ((get_multi_area P G).1 = [] ∨ (get_multi_area P G).1 = [.askRedraw 0] ∨
        (get_multi_area P G).1 = [.askRedraw 0, .askRedraw 0])) := by
  by_cases hG : G.length < 4
  · right; left
    simp [get_multi_area, hG]
  by_cases hP : P.length < 2
  · right; right; right; right
    simp [get_multi_area, hG, hP]
  rcases hI : interLs P G with - | q | pts | cs | ls | ⟨qs, ss⟩
  · right; right; left
    unfold get_multi_area
    rw [if_neg hG, if_neg hP, hI]
  · right; right; left
    unfold get_multi_area
    rw [if_neg hG, if_neg hP, hI]
  · -- multiPoint
    by_cases hlen : 2 < pts.length
    · right; right; right; left
      unfold get_multi_area
      rw [if_neg hG, if_neg hP, hI]
      simp [hlen]
    rcases pts with - | ⟨p0, - | ⟨p1, prest⟩⟩
    · right; right; right; right
      unfold get_multi_area
      rw [if_neg hG, if_neg hP, hI]
      exact ⟨rfl, Or.inl rfl⟩
    · right; right; right; right
      unfold get_multi_area
      rw [if_neg hG, if_neg hP, hI]
      exact ⟨rfl, Or.inl rfl⟩
    · rcases gm_pipeline P G p0 p1 prest hG hP hI hlen with h | h
      · exact Or.inl h
      · right; right; right; right; exact h
  · right; right; left
    unfold get_multi_area
    rw [if_neg hG, if_neg hP, hI]
  · right; right; left
    unfold get_multi_area
    rw [if_neg hG, if_neg hP, hI]
  · right; right; left
    unfold get_multi_area
    rw [if_neg hG, if_neg hP, hI]

/-- Case analysis of the loop-resolution continuation: silent return,
reject 1, crash, or one emitted curve. -/
theorem glaResolve_cases (l1 l2 : List Pt) (g : GeomResult) :
    glaResolve l1 l2 g = ([], .normal) ∨
    glaResolve l1 l2 g = ([.askRedraw 1], .normal) ∨
    glaResolve l1 l2 g = ([], .crash) ∨
    ∃ xs ys, glaResolve l1 l2 g = ([.newCoords xs ys], .normal) := by
  unfold glaResolve
  split
  · right; left; rfl
  · right; right; left; rfl
  · dsimp only
    split
    all_goals first
      | (right; right; right; exact ⟨_, _, rfl⟩)
      | (left; rfl)

/-- Master case analysis of `get_lasso_area`: silent return, reject 1,
crash, or exactly one emitted curve. -/
theorem gla_cases (lasso : List Pt) :
    get_lasso_area lasso = ([], .normal) ∨
    get_lasso_area lasso = ([.askRedraw 1], .normal) ∨
    get_lasso_area lasso = ([], .crash) ∨
    ∃ xs ys, get_lasso_area lasso = ([.newCoords xs ys], .normal) := by
  unfold get_lasso_area
  split
  · left; rfl
  · dsimp only
    split
    · right; right; right; exact ⟨_, _, rfl⟩
    · right; left; rfl
    all_goals exact glaResolve_cases _ _ _

/-- A point is on the segment ending at it. -/
theorem onSeg_self_right (u v : Pt) : onSeg u v v = true := by
  simp only [onSeg, decide_eq_true_eq]
  refine ⟨by simp only [cross]; ring, min_le_right _ _, le_max_right _ _,
    min_le_right _ _, le_max_right _ _⟩

/-- A point is on the segment starting at it. -/
theorem onSeg_self_left (u v : Pt) : onSeg u v u = true := by
  simp only [onSeg, decide_eq_true_eq]
  refine ⟨by simp only [cross]; ring, min_le_left _ _, le_max_left _ _,
    min_le_left _ _, le_max_left _ _⟩

/-- Two segments that share an endpoint (the first's start is the second's
end) always intersect: the segment-intersection primitive never reports
them disjoint. -/
theorem segInter_shared (a b c : Pt) : segInter a b c a ≠ none := by
  unfold segInter
  by_cases hab : a = b
  · rw [if_pos hab]
    by_cases hca : c = a
    · rw [if_pos hca, if_pos hca.symm]
      simp
    · rw [if_neg hca, if_pos (onSeg_self_right c a)]
      simp
  · rw [if_neg hab]
    by_cases hca : c = a
    · rw [if_pos hca, if_pos (show onSeg a b c = true by rw [hca]; exact onSeg_self_left a b)]
      simp
    · rw [if_neg hca]
      dsimp only
      have hws : cross (c.1 - a.1, c.2 - a.2) (a.1 - c.1, a.2 - c.2) = 0 := by
        simp only [cross]
        ring
      have hwr : cross (b.1 - a.1, b.2 - a.2) (a.1 - c.1, a.2 - c.2) =
          cross (c.1 - a.1, c.2 - a.2) (b.1 - a.1, b.2 - a.2) := by
        simp only [cross]
        ring
      by_cases hden : cross (b.1 - a.1, b.2 - a.2) (a.1 - c.1, a.2 - c.2) ≠ 0
      · rw [if_pos hden]
        have hu : cross (c.1 - a.1, c.2 - a.2) (b.1 - a.1, b.2 - a.2) /
            cross (b.1 - a.1, b.2 - a.2) (a.1 - c.1, a.2 - c.2) = 1 := by
          rw [← hwr]
          exact div_self hden
        have hcond : (0 : ℚ) ≤ cross (c.1 - a.1, c.2 - a.2) (a.1 - c.1, a.2 - c.2) /
              cross (b.1 - a.1, b.2 - a.2) (a.1 - c.1, a.2 - c.2) ∧
            cross (c.1 - a.1, c.2 - a.2) (a.1 - c.1, a.2 - c.2) /
              cross (b.1 - a.1, b.2 - a.2) (a.1 - c.1, a.2 - c.2) ≤ 1 ∧
            (0 : ℚ) ≤ cross (c.1 - a.1, c.2 - a.2) (b.1 - a.1, b.2 - a.2) /
              cross (b.1 - a.1, b.2 - a.2) (a.1 - c.1, a.2 - c.2) ∧
            cross (c.1 - a.1, c.2 - a.2) (b.1 - a.1, b.2 - a.2) /
              cross (b.1 - a.1, b.2 - a.2) (a.1 - c.1, a.2 - c.2) ≤ 1 := by
          rw [hws, zero_div, hu]
          norm_num
        rw [if_pos hcond]
        simp
      · push_neg at hden
        rw [if_neg (not_ne_iff.mpr hden)]
        rw [if_neg (not_ne_iff.mpr (hwr.symm.trans hden))]
        have htd : dot (a.1 - a.1, a.2 - a.2) (b.1 - a.1, b.2 - a.2) = 0 := by
          simp [dot]
        have hrrpos : 0 < dot (b.1 - a.1, b.2 - a.2) (b.1 - a.1, b.2 - a.2) := by
          have h1 : b.1 - a.1 ≠ 0 ∨ b.2 - a.2 ≠ 0 := by
            by_contra hcon
            push_neg at hcon
            exact hab (Prod.ext (by linarith [hcon.1]) (by linarith [hcon.2]))
          simp only [dot]
          rcases h1 with h | h
          · nlinarith [mul_self_pos.mpr h, mul_self_nonneg (b.2 - a.2)]
          · nlinarith [mul_self_pos.mpr h, mul_self_nonneg (b.1 - a.1)]
        split_ifs with h1 h2
        · rw [htd] at h1
          have hlo : max 0 (min (dot (c.1 - a.1, c.2 - a.2) (b.1 - a.1, b.2 - a.2)) 0) =
              (0 : ℚ) := max_eq_left (min_le_right _ 0)
          have hhi : (0 : ℚ) ≤ min (dot (b.1 - a.1, b.2 - a.2) (b.1 - a.1, b.2 - a.2))
              (max (dot (c.1 - a.1, c.2 - a.2) (b.1 - a.1, b.2 - a.2)) 0) :=
            le_min hrrpos.le (le_max_right _ 0)
          rw [hlo] at h1
          exact absurd h1 (not_lt.2 hhi)
        · simp
        · simp

/-- The classifier reports an empty collection only when there are no
residual points and no overlap runs. -/
theorem classify_ne_empty {pts : List Pt} {overs : List (Pt × Pt)}
    (h : pts ≠ [] ∨ overs ≠ []) : classify pts overs ≠ .emptyCollection := by
  rcases pts with - | ⟨q, - | ⟨q2, qs⟩⟩ <;> rcases overs with - | ⟨s, - | ⟨s2, ss⟩⟩ <;>
    simp_all [classify]

/-- A nonempty list deduplicates to a nonempty list. -/
theorem dedupFirst_ne_nil {l : List Pt} (h : l ≠ []) : dedupFirst l ≠ [] := by
  cases l with
  | nil => exact absurd rfl h
  | cons a t => simp [dedupFirst]

/-- If the classified intersection of two polylines is empty, every pair of
their segments is disjoint. -/
theorem interLs_empty_imp {A B : List Pt} (h : interLs A B = .emptyCollection) :
    ∀ sa ∈ segsOf A, ∀ sb ∈ segsOf B, segInter sa.1 sa.2 sb.1 sb.2 = none := by
  intro sa hsa sb hsb
  rcases hx : segInter sa.1 sa.2 sb.1 sb.2 with - | x
  · rfl
  exfalso
  have hmem : x ∈ lociOf A B := by
    unfold lociOf
    rw [List.mem_flatten]
    exact ⟨_, List.mem_map_of_mem _ hsa, List.mem_filterMap.2 ⟨sb, hsb, hx⟩⟩
  unfold interLs at h
  dsimp only at h
  cases x with
  | seg u v =>
    have hov : (u, v) ∈ (lociOf A B).filterMap
        (fun x => match x with | .seg u v => some (u, v) | _ => none) :=
      List.mem_filterMap.2 ⟨.seg u v, hmem, rfl⟩
    exact classify_ne_empty (Or.inr (List.ne_nil_of_mem hov)) h
  | pt q =>
    rcases hovs : (lociOf A B).filterMap
        (fun x => match x with | .seg u v => some (u, v) | _ => none) with - | ⟨s0, ss⟩
    · have hq : q ∈ (lociOf A B).filterMap
          (fun x => match x with | .pt q => some q | _ => none) :=
        List.mem_filterMap.2 ⟨.pt q, hmem, rfl⟩
      have hqf : q ∈ ((lociOf A B).filterMap
          (fun x => match x with | .pt q => some q | _ => none)).filter
          (fun q => ¬ ((lociOf A B).filterMap
            (fun x => match x with | .seg u v => some (u, v) | _ => none)).any
            (fun s => onSeg s.1 s.2 q)) := by
        refine List.mem_filter.2 ⟨hq, ?_⟩
        rw [hovs]
        simp
      exact classify_ne_empty
        (Or.inl (dedupFirst_ne_nil (List.ne_nil_of_mem hqf))) h
    · exact classify_ne_empty (Or.inr (hovs ▸ List.cons_ne_nil s0 ss)) h

/-- The last vertex of a polyline with at least two vertices appears as the
second component of one of its segments. -/
theorem segsOf_getLast_mem : ∀ (l : List Pt), 2 ≤ l.length →
    ∃ u v, l.getLast? = some v ∧ (u, v) ∈ segsOf l := by
  intro l
  induction l with
  | nil => intro h; simp at h
  | cons a t ih =>
    intro h
    cases t with
    | nil => simp at h
    | cons b t2 =>
      cases t2 with
      | nil => exact ⟨a, b, rfl, by simp [segsOf]⟩
      | cons c t3 =>
        obtain ⟨u, v, hv, hmem⟩ := ih (by simp)
        refine ⟨u, v, ?_, ?_⟩
        · rw [List.getLast?_cons_cons]
          exact hv
        · exact List.mem_cons_of_mem _ hmem

end Lemmas

section Claims

attribute [local semireducible] Rat.add Rat.mul Rat.inv Rat.sub

/-- C10: for every gesture with fewer than 4 points, both `get_lasso_area`
(resolveLoop) and `get_multi_area` (resolveSplit) return silently: no curve
is emitted and no reject code is reported. -/
theorem c10_short_gesture_silent :
    (∀ lasso : List Pt, lasso.length < 4 → get_lasso_area lasso = ([], .normal)) ∧
    (∀ parent gesture : List Pt, gesture.length < 4 →
      get_multi_area parent gesture = ([], .normal)) := by
  constructor
  · intro lasso h
    simp [get_lasso_area, h]
  · intro parent gesture h
    simp [get_multi_area, h]

/-- Witness for C10 at concrete three-point gestures. -/
theorem c10_short_gesture_silent_witness :
    get_lasso_area [(0, 0), (1, 0), (1, 1)] = ([], .normal) ∧
    get_multi_area squareRing [(0, 0), (1, 0), (1, 1)] = ([], .normal) :=
  ⟨c10_short_gesture_silent.1 _ (by decide),
   c10_short_gesture_silent.2 _ _ (by decide)⟩

/-- C4 (counterexample): a single `Point` is returned unchanged, not rounded
to the nearest pixel — at `(1/2, 1/2)` the resolver returns `(1/2, 1/2)`
itself, which is not the rounded point and has no integer coordinates. -/
theorem c4_resolver_counterexample :
    get_intersection_point (.point (1/2, 1/2)) = .ok (1/2, 1/2) ∧
    roundPt (1/2, 1/2) ≠ ((1 : ℚ)/2, (1 : ℚ)/2) := by
  exact ⟨rfl, by decide⟩

/-- C4 (amended): the resolver returns a bare `Point` unchanged; it accepts
every nonempty `PointSet` — the 1-px tolerance is only ever checked against
the cluster's own first member, so it never rejects — with value the rounded
mean of the rounded members; a `Curve` (`LineString`) is likewise clustered
and accepted, not rejected; a `CurveSet` (`MultiLineString`) crashes with an
uncaught `TypeError`; values produced from set or curve inputs have integer
pixel coordinates, but a bare `Point` need not. -/
theorem c4_resolver_contract :
    (∀ p : Pt, get_intersection_point (.point p) = .ok p)
    ∧ (∀ (c : Pt) (cs : List Pt), get_intersection_point (.multiPoint (c :: cs)) =
        .ok (roundPt (meanList ((c :: cs).map roundPt))))
    ∧ (∀ (c : Pt) (cs : List Pt), get_intersection_point (.lineString (c :: cs)) =
        .ok (roundPt (meanList ((c :: cs).map roundPt))))
    ∧ (∀ ls : List (List Pt), get_intersection_point (.multiLineString ls) = .crash)
    ∧ (∀ (c : Pt) (cs : List Pt), ∃ zx zy : ℤ,
        get_intersection_point (.multiPoint (c :: cs)) = .ok ((zx : ℚ), (zy : ℚ))) := by
  refine ⟨fun p => rfl, fun c cs => clusterPhase_cons c cs, fun c cs => clusterPhase_cons c cs,
    fun ls => rfl, fun c cs => ?_⟩
  refine ⟨npRound (meanList ((c :: cs).map roundPt)).1,
          npRound (meanList ((c :: cs).map roundPt)).2, ?_⟩
  rw [show get_intersection_point (.multiPoint (c :: cs)) = clusterPhase (c :: cs) from rfl,
      clusterPhase_cons]
  rfl

/-- C9: on any nonempty point cluster within the 1-px per-axis tolerance the
resolver is order-independent — every permutation of the cluster resolves to
the same canonical value, the rounded mean of the rounded members. -/
theorem c9_resolver_perm (ps ps' : List Pt) (hne : ps ≠ []) (hperm : ps.Perm ps')
    (htol : ∀ p ∈ ps, ∀ q ∈ ps, |p.1 - q.1| ≤ 1 ∧ |p.2 - q.2| ≤ 1) :
    get_intersection_point (.multiPoint ps) = get_intersection_point (.multiPoint ps') ∧
    get_intersection_point (.multiPoint ps) = .ok (roundPt (meanList (ps.map roundPt))) := by
  obtain ⟨c, cs, rfl⟩ : ∃ c cs, ps = c :: cs := by
    cases ps with
    | nil => exact absurd rfl hne
    | cons c cs => exact ⟨c, cs, rfl⟩
  obtain ⟨c', cs', rfl⟩ : ∃ c' cs', ps' = c' :: cs' := by
    cases ps' with
    | nil => simp at hperm
    | cons c' cs' => exact ⟨c', cs', rfl⟩
  refine ⟨?_, clusterPhase_cons c cs⟩
  rw [show get_intersection_point (.multiPoint (c :: cs)) = clusterPhase (c :: cs) from rfl,
      show get_intersection_point (.multiPoint (c' :: cs')) = clusterPhase (c' :: cs') from rfl,
      clusterPhase_cons, clusterPhase_cons, meanList_perm (hperm.map roundPt)]

/-- Witness for C9 at a two-point cluster and its swap. -/
theorem c9_resolver_perm_witness :
    get_intersection_point (.multiPoint [((0 : ℚ), (0 : ℚ)), (1, 1)]) =
      get_intersection_point (.multiPoint [((1 : ℚ), (1 : ℚ)), (0, 0)]) :=
  (c9_resolver_perm _ _ (by decide) (by decide) (by decide)).1

set_option maxRecDepth 8000 in
/-- C6 (failing input): the engine can crash.  The parent is the closed
square ring and the gesture crosses it twice near the corner `(10,0)`, so
both parent-side crossings resolve to that same vertex; `split2_old` then
has a single piece whose seam test passes, and `split2_old[1]` raises an
uncaught `IndexError` — the call neither returns a curve nor a reject code. -/
theorem c6_crash_on_corner_split :
    get_multi_area squareRing cornerGesture = ([], .crash) := by decide

set_option maxRecDepth 8000 in
/-- C5 (counterexample): an accepted split whose emitted child curve is not
an explicitly closed ring.  At the square parent and the vertical gesture
`[(4,-2),(4,1),(4,9),(4,12)]` the split succeeds and emits the child
`[(4,1),(4,9),(0,10),(0,0)]`, whose last point differs from its first —
`get_multi_area` never re-appends the first coordinate. -/
theorem c5_counterexample_child_not_closed :
    get_multi_area squareRing vGesture =
      ([.newCoords [4, 4, 0, 0] [1, 9, 10, 0]], .normal) ∧
    ([((4 : ℚ), (1 : ℚ)), (4, 9), (0, 10), (0, 0)].headD (0, 0) ≠
      [((4 : ℚ), (1 : ℚ)), (4, 9), (0, 10), (0, 0)].getLastD (0, 0)) := by
  exact ⟨by decide, by decide⟩

set_option maxRecDepth 8000 in
/-- C8 (counterexample): a rejected engine call does not leave the target
object's stored curve unchanged.  `demoObj` stores `x = [1,2]`; the far
gesture misses the parent, the engine rejects with code 2, and afterwards
the object's stored coordinates are `None` (cleared by `remove_object` in
the reject handler, after `onselect` had already overwritten them with the
raw gesture). -/
theorem c8_counterexample_reject_alters_target :
    (onselect demoObj farGesture).2.1 = [.askRedraw 2] ∧
    (onselect demoObj farGesture).1.x = none ∧
    demoObj.x = some [1, 2] := by
  exact ⟨by decide, by decide, rfl⟩

/-- C2: an engine call never mutates the parent contour's stored curve:
whatever the gesture and outcome, the session state after `onselect` (with
all queued backend emissions delivered) carries the parent's coordinate
lists unchanged. -/
theorem c2_parent_never_mutated (o : SessObj) (verts : List Pt) :
    (onselect o verts).1.hasParent = o.hasParent ∧
    (onselect o verts).1.parentX = o.parentX ∧
    (onselect o verts).1.parentY = o.parentY := by
  unfold onselect
  repeat' split
  all_goals
    refine ⟨?_, ?_, ?_⟩ <;>
      simp [applyTrace_hasParent, applyTrace_parentX, applyTrace_parentY]

/-- C7: resolution is all-or-nothing — no single call to `get_lasso_area`
or `get_multi_area` ever both reports a reject code and emits a curve
output. -/
theorem c7_all_or_nothing :
    (∀ lasso : List Pt,
      (((get_lasso_area lasso).1.any isReject) && ((get_lasso_area lasso).1.any isCurve)) =
        false) ∧
    (∀ parent gesture : List Pt,
      (((get_multi_area parent gesture).1.any isReject) &&
        ((get_multi_area parent gesture).1.any isCurve)) = false) := by
  constructor
  · intro lasso
    rcases gla_cases lasso with h | h | h | ⟨xs, ys, h⟩ <;> rw [h] <;> rfl
  · intro parent gesture
    rcases gm_master parent gesture with ⟨K, R, -, -, -, -, h⟩ | h | h | h | ⟨-, h⟩
    · rw [h]; rfl
    · rw [h]; rfl
    · rw [h]; rfl
    · rw [h]; rfl
    · rcases h with h | h | h <;> rw [h] <;> rfl

/-- C3: the precondition checks of the split resolver.  A gesture of ≥4
points over a valid parent curve: a non-intersecting gesture, or an
intersection that is a single point, an overlap run (`LineString` /
`MultiLineString`), or a mixed collection, all reject with code 2
(`MUST_CROSS_TWICE_AT_ENDPOINTS`); more than two crossing points reject
with code 4 (`TOO_MANY_CROSSINGS`); with exactly two crossing points the
call proceeds past these checks — neither code 2 nor code 4 is ever
reported. -/
theorem c3_split_prechecks (P G : List Pt) (hG : 4 ≤ G.length) (hP : 2 ≤ P.length) :
    (interLs P G = .emptyCollection → get_multi_area P G = ([.askRedraw 2], .normal)) ∧
    (∀ q, interLs P G = .point q → get_multi_area P G = ([.askRedraw 2], .normal)) ∧
    (∀ cs, interLs P G = .lineString cs → get_multi_area P G = ([.askRedraw 2], .normal)) ∧
    (∀ ls, interLs P G = .multiLineString ls →
      get_multi_area P G = ([.askRedraw 2], .normal)) ∧
    (∀ qs ss, interLs P G = .collection qs ss →
      get_multi_area P G = ([.askRedraw 2], .normal)) ∧
    (∀ pts, interLs P G = .multiPoint pts → 2 < pts.length →
      get_multi_area P G = ([.askRedraw 4], .normal)) ∧
    (∀ pts, interLs P G = .multiPoint pts → pts.length = 2 →
      Emission.askRedraw 2 ∉ (get_multi_area P G).1 ∧
      Emission.askRedraw 4 ∉ (get_multi_area P G).1) := by
  have hG' : ¬G.length < 4 := by omega
  have hP' : ¬P.length < 2 := by omega
  refine ⟨?_, ?_, ?_, ?_, ?_, ?_, ?_⟩
  · intro h
    unfold get_multi_area
    rw [if_neg hG', if_neg hP', h]
  · intro q h
    unfold get_multi_area
    rw [if_neg hG', if_neg hP', h]
  · intro cs h
    unfold get_multi_area
    rw [if_neg hG', if_neg hP', h]
  · intro ls h
    unfold get_multi_area
    rw [if_neg hG', if_neg hP', h]
  · intro qs ss h
    unfold get_multi_area
    rw [if_neg hG', if_neg hP', h]
  · intro pts h hlen
    unfold get_multi_area
    rw [if_neg hG', if_neg hP', h]
    simp [hlen]
  · intro pts h hlen2
    obtain ⟨p0, p1, rfl⟩ := List.length_eq_two.1 hlen2
    have hlen : ¬2 < ([p0, p1] : List Pt).length := by simp
    rcases gm_pipeline P G p0 p1 [] hG' hP' h hlen with ⟨K, R, -, -, -, -, heq⟩ | ⟨-, htr⟩
    · rw [heq]
      simp
    · rcases htr with htr | htr | htr <;> rw [htr] <;> simp

/-- Witness for C3: the square parent with a W-shaped gesture crossing its
bottom edge three times rejects with code 4. -/
theorem c3_split_prechecks_witness :
    get_multi_area squareRing wGesture = ([.askRedraw 4], .normal) :=
  (c3_split_prechecks squareRing wGesture (by decide) (by decide)).2.2.2.2.2.1
    [(1, 0), (3, 0), (8, 0)] (by decide) (by decide)

/-- C5 (amended): every accepted split emits the kept gesture piece `K`
followed by the kept parent arc `R` (forward or reversed, chosen by endpoint
proximity): all of `K`'s vertices are gesture vertices and all of `R`'s are
parent vertices, and no closing coordinate is appended — the child is not in
general an explicitly closed ring (see the counterexample). -/
theorem c5_amended_child_structure (P G : List Pt) (xs ys : List ℚ)
    (h : get_multi_area P G = ([.newCoords xs ys], .normal)) :
    ∃ K R, K ≠ [] ∧ R ≠ [] ∧ (∀ v ∈ K, v ∈ G) ∧ (∀ v ∈ R, v ∈ P) ∧
      xs = (K ++ R).map Prod.fst ∧ ys = (K ++ R).map Prod.snd := by
  rcases gm_master P G with ⟨K, R, h1, h2, h3, h4, heq⟩ | heq | heq | heq | ⟨hc, -⟩
  · have hcomp := h.symm.trans heq
    simp only [Prod.mk.injEq, List.cons.injEq, Emission.newCoords.injEq, and_true] at hcomp
    exact ⟨K, R, h1, h2, h3, h4, hcomp.1, hcomp.2⟩
  · rw [h] at heq
    simp at heq
  · rw [h] at heq
    simp at heq
  · rw [h] at heq
    simp at heq
  · rw [h] at hc
    simp at hc

set_option maxRecDepth 8000 in
/-- Witness for C5 (amended) at the square parent and the vertical
4-point gesture. -/
theorem c5_amended_child_structure_witness :
    ∃ K R, K ≠ [] ∧ R ≠ [] ∧ (∀ v ∈ K, v ∈ vGesture) ∧ (∀ v ∈ R, v ∈ squareRing) ∧
      ([4, 4, 0, 0] : List ℚ) = (K ++ R).map Prod.fst ∧
      ([1, 9, 10, 0] : List ℚ) = (K ++ R).map Prod.snd :=
  c5_amended_child_structure squareRing vGesture [4, 4, 0, 0] [1, 9, 10, 0]
    (by decide)

/-- C8 (amended): on every engine call that reports a reject code, the
target object ends with no stored contour at all — `onselect` first
overwrites its coordinates with the raw gesture and the reject handler then
clears them to `None` — while the parent's stored coordinates are never
modified. -/
theorem c8_amended_reject_clears (o : SessObj) (verts : List Pt) (n : ℕ)
    (h : Emission.askRedraw n ∈ (onselect o verts).2.1) :
    (onselect o verts).1.x = none ∧ (onselect o verts).1.y = none ∧
    (onselect o verts).1.parentX = o.parentX ∧ (onselect o verts).1.parentY = o.parentY := by
  unfold onselect at h ⊢
  by_cases hpar : o.hasParent = false
  · rw [if_pos hpar] at h ⊢
    dsimp only at h ⊢
    rcases gla_cases verts with hg | hg | hg | ⟨xs, ys, hg⟩ <;> rw [hg] at h ⊢ <;> dsimp only at h ⊢
    · simp at h
    · refine ⟨?_, ?_, ?_, ?_⟩ <;> simp [applyTrace, applyEmission]
    · simp at h
    · simp at h
  · rw [if_neg hpar] at h ⊢
    rcases hpx : o.parentX with - | xs
    · exact ⟨rfl, rfl, rfl, rfl⟩
    · rcases hpy : o.parentY with - | ys
      · rw [hpx, hpy] at h
        dsimp only at h ⊢
        by_cases hxs : xs = []
        · rw [if_pos hxs] at h ⊢
          dsimp only at h ⊢
          rcases gm_master [] verts with ⟨K, R, -, -, -, -, hg⟩ | hg | hg | hg | ⟨-, htr⟩
          · rw [hg] at h
            simp at h
          · rw [hg] at h
            simp at h
          · rw [hg] at h ⊢
            refine ⟨?_, ?_, ?_, ?_⟩ <;> simp [applyTrace, applyEmission]
          · rw [hg] at h ⊢
            refine ⟨?_, ?_, ?_, ?_⟩ <;> simp [applyTrace, applyEmission]
          · rcases htr with htr | htr | htr <;> rw [htr] at h ⊢
            · simp at h
            · refine ⟨?_, ?_, ?_, ?_⟩ <;> simp [applyTrace, applyEmission]
            · refine ⟨?_, ?_, ?_, ?_⟩ <;> simp [applyTrace, applyEmission]
        · rw [if_neg hxs] at h ⊢
          exact ⟨rfl, rfl, rfl, rfl⟩
      · rw [hpx, hpy] at h
        dsimp only at h ⊢
        by_cases hlen : ys.length < xs.length
        · rw [if_pos hlen] at h ⊢
          simp at h
        · rw [if_neg hlen] at h ⊢
          dsimp only at h ⊢
          rcases gm_master (xs.zip ys) verts with ⟨K, R, -, -, -, -, hg⟩ | hg | hg | hg | ⟨-, htr⟩
          · rw [hg] at h
            simp at h
          · rw [hg] at h
            simp at h
          · rw [hg] at h ⊢
            refine ⟨?_, ?_, ?_, ?_⟩ <;> simp [applyTrace, applyEmission]
          · rw [hg] at h ⊢
            refine ⟨?_, ?_, ?_, ?_⟩ <;> simp [applyTrace, applyEmission]
          · rcases htr with htr | htr | htr <;> rw [htr] at h ⊢
            · simp at h
            · refine ⟨?_, ?_, ?_, ?_⟩ <;> simp [applyTrace, applyEmission]
            · refine ⟨?_, ?_, ?_, ?_⟩ <;> simp [applyTrace, applyEmission]

set_option maxRecDepth 8000 in
/-- Witness for C8 (amended): the stored-curve object with the far gesture
is rejected with code 2 and ends cleared, its parent untouched. -/
theorem c8_amended_reject_clears_witness :
    (onselect demoObj farGesture).1.x = none ∧ (onselect demoObj farGesture).1.y = none ∧
    (onselect demoObj farGesture).1.parentX = demoObj.parentX ∧
    (onselect demoObj farGesture).1.parentY = demoObj.parentY :=
  c8_amended_reject_clears demoObj farGesture 2 (by decide)

/-- C1: a gesture of at least 4 points whose two index halves (first
`⌈n/2⌉` points and the remainder) do not intersect is closed as-is:
`get_lasso_area` emits exactly the gesture's points in their original order
with the first point re-appended as the last, altering no point and
synthesizing no crossing. -/
theorem c1_loop_close (lasso : List Pt) (p : Pt) (rest : List Pt)
    (hcons : lasso = p :: rest) (hlen : 4 ≤ lasso.length)
    (hdisj : interLs (lasso.take ((lasso.length + 1) / 2))
        (lasso.drop ((lasso.length + 1) / 2)) = .emptyCollection) :
    get_lasso_area lasso =
      ([.newCoords ((lasso ++ [p]).map Prod.fst) ((lasso ++ [p]).map Prod.snd)],
        .normal) := by
  have hnotlt : ¬lasso.length < 4 := by omega
  have hrestlen : lasso.length = rest.length + 1 := by rw [hcons]; rfl
  have hne : lasso.head? ≠ lasso.getLast? := by
    intro hEq
    set k := (lasso.length + 1) / 2 with hk
    obtain ⟨k', hk'⟩ : ∃ k', k = k' + 2 := ⟨k - 2, by rw [hk]; omega⟩
    have htake : lasso.take k = p :: rest.take (k' + 1) := by
      rw [hcons, hk']
      rfl
    rcases hqt : rest.take (k' + 1) with - | ⟨q, t⟩
    · have := congrArg List.length hqt
      simp only [List.length_take, List.length_nil] at this
      omega
    have hfirstseg : (p, q) ∈ segsOf (lasso.take k) := by
      rw [htake, hqt]
      simp [segsOf]
    have hdropne : lasso.drop k ≠ [] := by
      intro hnil
      have := congrArg List.length hnil
      simp only [List.length_drop, List.length_nil] at this
      omega
    have hlast : lasso.getLast? = (lasso.drop k).getLast? := by
      conv_lhs => rw [← List.take_append_drop k lasso]
      exact List.getLast?_append_of_ne_nil _ hdropne
    have hlen2 : 2 ≤ (lasso.drop k).length := by
      rw [List.length_drop]
      omega
    obtain ⟨u, v, hv, hmem⟩ := segsOf_getLast_mem (lasso.drop k) hlen2
    have hvp : v = p := by
      have hp : lasso.getLast? = some p := by
        rw [← hEq, hcons]
        rfl
      rw [hlast, hv] at hp
      exact Option.some_inj.mp hp
    have hnone := interLs_empty_imp hdisj (p, q) hfirstseg (u, v) hmem
    rw [hvp] at hnone
    exact segInter_shared p q u hnone
  unfold get_lasso_area
  rw [if_neg hnotlt]
  dsimp only
  rw [hdisj]
  dsimp only
  rw [if_neg hne, hcons]
  rfl

/-- Witness for C1 at the square gesture `[(0,0),(10,0),(10,10),(0,10)]`,
whose halves are disjoint: the emitted ring is
`[(0,0),(10,0),(10,10),(0,10),(0,0)]`. -/
theorem c1_loop_close_witness :
    get_lasso_area [(0, 0), (10, 0), (10, 10), (0, 10)] =
      ([.newCoords [0, 10, 10, 0, 0] [0, 0, 10, 10, 0]], .normal) :=
  c1_loop_close [(0, 0), (10, 0), (10, 10), (0, 10)] (0, 0)
    [(10, 0), (10, 10), (0, 10)] rfl (by decide) (by decide)

end Claims

end Elk
